import Mathlib

/-!
Shallow embedding of the TimeTicker core (src/task.rs, src/parser.rs and the
menu-action decoding of src/main.rs) together with proofs about the claims of
the specification.

Modelling conventions:
* `std::time::SystemTime` is modelled as an `Int`: the signed number of seconds
  relative to `UNIX_EPOCH` (instants before the epoch are negative).  All the
  program logic under verification works at whole-second granularity, so the
  sub-second precision of `std::time::Duration` is dropped and a `Duration`
  value is a `Nat` counting seconds.  `Duration::saturating_sub` is then exactly
  truncated `Nat` subtraction.
* The fallible clock conversions of src/error.rs (`system_time_to_duration`,
  which fails for instants before the epoch) and `SystemTime::elapsed` (which
  fails when the start instant lies in the future) return `Except ClockErr _`.
* Rust methods taking `&mut self` and returning `Result<()>` are modelled as
  functions `Task → Task × Option ClockErr`: the returned `Task` is the final
  state of `self`, *including* the state left behind when an error is returned
  early by the `?` operator, which is what the error-path claims are about.
-/

namespace TimeTicker

/-- The `SystemTimeError` variant of src/error.rs, the only error the task
module can produce (`snafu` backtraces carry no information we model). -/
inductive ClockErr
  | systemTime
deriving DecidableEq

/-- Embedding of `system_time_to_duration` (src/error.rs line 96):
`t.duration_since(UNIX_EPOCH)` succeeds exactly when `t` is not before the
epoch. -/
def system_time_to_duration (t : Int) : Except ClockErr Nat :=
  if 0 ≤ t then .ok t.toNat else .error .systemTime

/-- Embedding of `start.elapsed()` evaluated when the current clock reading is
`now`: `SystemTime::now().duration_since(start)`, which fails when `start` is
later than `now`. -/
def elapsedSince (start now : Int) : Except ClockErr Nat :=
  if start ≤ now then .ok (now - start).toNat else .error .systemTime

/-- `TaskType` of src/task.rs: a fixed countdown length in seconds, or an
absolute deadline instant. -/
inductive TaskType
  | Duration (d : Nat)
  | Deadline (t : Int)
deriving DecidableEq

/-- The `Task` struct of src/task.rs. -/
structure Task where
  name : String
  task_type : TaskType
  is_running : Bool
  start_time : Option Int
  remaining : Nat
  pinned : Bool
deriving DecidableEq

/-- `Task::start` (src/task.rs lines 42–47), evaluated when the clock reads
`now`. -/
def Task.start (t : Task) (now : Int) : Task :=
  if t.is_running then t
  else { t with is_running := true, start_time := some now }

/-- `Task::pause` (src/task.rs lines 50–60), evaluated when the clock reads
`now`.  The source sets `self.is_running = false` *before* the fallible
`start.elapsed()` call, so when that call fails the returned state already has
`is_running` cleared while `start_time` and `remaining` are untouched. -/
def Task.pause (t : Task) (now : Int) : Task × Option ClockErr :=
  if t.is_running then
    let t1 := { t with is_running := false }
    match t1.start_time with
    | some start =>
      match elapsedSince start now with
      | .error e => (t1, some e)
      | .ok elapsed =>
        ({ t1 with remaining := t1.remaining - elapsed, start_time := none }, none)
    | none => ({ t1 with start_time := none }, none)
  else (t, none)

/-- `Task::reset` (src/task.rs lines 63–74), evaluated when the clock reads
`now`.  `is_running` and `start_time` are cleared before the fallible clock
conversions of the `Deadline` arm run. -/
def Task.reset (t : Task) (now : Int) : Task × Option ClockErr :=
  let t1 := { t with is_running := false, start_time := none }
  match t.task_type with
  | .Duration d => ({ t1 with remaining := d }, none)
  | .Deadline dl =>
    match system_time_to_duration dl with
    | .error e => (t1, some e)
    | .ok dlSecs =>
      match system_time_to_duration now with
      | .error e => (t1, some e)
      | .ok nowSecs => ({ t1 with remaining := dlSecs - nowSecs }, none)

/-- `Task::get_remaining_time` (src/task.rs lines 77–95), evaluated when the
clock reads `now`. -/
def Task.get_remaining_time (t : Task) (now : Int) : Except ClockErr Nat :=
  match t.task_type with
  | .Duration _ =>
    if !t.is_running then .ok t.remaining
    else
      match t.start_time with
      | some start =>
        match elapsedSince start now with
        | .error e => .error e
        | .ok elapsed => .ok (t.remaining - elapsed)
      | none => .ok t.remaining
  | .Deadline dl =>
    match system_time_to_duration dl with
    | .error e => .error e
    | .ok dlSecs =>
      match system_time_to_duration now with
      | .error e => .error e
      | .ok nowSecs => .ok (dlSecs - nowSecs)

/-!
Embedding of `parse_time_input` (src/parser.rs).

The two regular expressions of the source are embedded as recursive functions
with the semantics the `regex` crate gives them:

* `^(.*?)(?:#(.+))?$` anchored on the whole input: the lazy group 1 grows from
  the left, and the optional group is preferred present, so the input is split
  at the *first* `#` that has at least one character after it; if there is no
  such `#`, group 1 is the whole input and group 2 is absent.  `.` does not
  match a newline, so an input containing `\n` has no match at all and
  `captures` fails (the `InvalidInputFormat` path of src/parser.rs line 12).
* `(\d+)\s*([hm])` searched with `captures_iter`: the leftmost-first matches
  are the positions where a maximal digit run, optional whitespace and then an
  `h` or `m` occur; backtracking can choose no other division because a shorter
  `\d+` is followed by a digit and a shorter `\s*` by a whitespace character,
  neither of which matches `[hm]`.

The `regex` crate's `\d`/`\s` and Rust's `str::trim` are Unicode-aware; the
model uses their ASCII subsets (`Char.isDigit` and `isWs` below), which agree
with the source on all ASCII input.
-/

/-- The parser-facing variants of the `Error` enum of src/error.rs.
`panicOverflow` is not an `Error` variant: it marks the arithmetic-overflow
panics Rust would raise in `value * 3600` / `value * 60` (debug builds) and in
`Duration` addition, so that the model stays total without pretending a value
is returned there.  `regexCompile` and `invalidDurationUnit` are kept for
faithfulness although no input reaches them. -/
inductive ParseErr
  | regexCompile
  | invalidInputFormat
  | missingTimeInput
  | chronoParse
  | timezoneConversion
  | parseNumber
  | invalidDurationUnit
  | zeroDuration
  | panicOverflow
deriving DecidableEq

/-- ASCII subset of the whitespace class used by `str::trim` and `\s`. -/
def isWs (c : Char) : Bool :=
  c = ' ' ∨ c = '\t' ∨ c = '\n' ∨ c = '\r' ∨ c = '\x0b' ∨ c = '\x0c'

/-- `str::trim` on a character list. -/
def trimChars (cs : List Char) : List Char :=
  ((cs.dropWhile isWs).reverse.dropWhile isWs).reverse

/-- Scan for the first `#` that has at least one character after it — the
split point chosen by `^(.*?)(?:#(.+))?$`.  Returns the characters before the
`#` and the (nonempty) characters after it. -/
def findHash : List Char → Option (List Char × List Char)
  | [] => none
  | c :: rest =>
    if c = '#' ∧ rest ≠ [] then some ([], rest)
    else
      match findHash rest with
      | some (a, b) => some (c :: a, b)
      | none => none

/-- The `re.captures(input)` step of src/parser.rs lines 11–12: group 1 and the
optional group 2 of `^(.*?)(?:#(.+))?$`, or `none` when the regex does not
match (which happens exactly when the input contains a newline). -/
def splitInput (cs : List Char) : Option (List Char × Option (List Char)) :=
  if '\n' ∈ cs then none
  else
    match findHash cs with
    | some (a, b) => some (a, some b)
    | none => some (cs, none)

/-- Whether the time part starts with `'@'` (`time_str.strip_prefix('@')`
succeeding, src/parser.rs line 21). -/
def headIsAt : List Char → Bool
  | [] => false
  | c :: _ => c == '@'

/-- Numeric value of a digit string (the value `str::parse` computes when it
succeeds). -/
def natOfDigits (cs : List Char) : Nat :=
  cs.foldl (fun a c => a * 10 + (c.toNat - 48)) 0

/-- One match of `(\d+)\s*([hm])` at the head of the list: a maximal nonempty
digit run, maximal whitespace, then `h` or `m`; returns the digit run, the
unit character and the characters after the match. -/
def tryToken (cs : List Char) : Option (List Char × Char × List Char) :=
  if cs.takeWhile Char.isDigit = [] then none
  else
    match (cs.dropWhile Char.isDigit).dropWhile isWs with
    | [] => none
    | u :: r =>
      if u = 'h' ∨ u = 'm' then some (cs.takeWhile Char.isDigit, u, r) else none

/-- Recursion workhorse for `findTokens`, structurally recursive on a fuel
counter so that concrete inputs evaluate by kernel reduction.  By
`tryToken_length`, every step strictly shortens the character list by at least
one, so fuel equal to the list's length (as `findTokens` passes) can never run
out before the list is exhausted. -/
def findTokensAux (fuel : Nat) (cs : List Char) : List (List Char × Char) :=
  match fuel with
  | 0 => []
  | fuel + 1 =>
    match cs with
    | [] => []
    | c :: rest =>
      match tryToken (c :: rest) with
      | some (digits, u, r) => (digits, u) :: findTokensAux fuel r
      | none => findTokensAux fuel rest

/-- All matches found by `re_duration.captures_iter(time_str)` in order
(src/parser.rs line 46), each as its digit run and unit character: scan left to
right, taking a match wherever one starts and resuming after it. -/
def findTokens (cs : List Char) : List (List Char × Char) :=
  findTokensAux cs.length cs

/-- `value_str.parse::<u64>()` (src/parser.rs line 48) on a digit run produced
by `(\d+)`: it fails (with a `ParseIntError` wrapped as `ParseNumber`) exactly
when the value overflows `u64`. -/
def tokenValue (digits : List Char) : Except ParseErr Nat :=
  if natOfDigits digits < 2 ^ 64 then .ok (natOfDigits digits) else .error .parseNumber

/-- `value * 3600` / `value * 60` as `u64` multiplication: Rust panics on
overflow (debug builds); the model reports that as `panicOverflow` instead of
returning a value. -/
def mulSecs (v k : Nat) : Except ParseErr Nat :=
  if v * k < 2 ^ 64 then .ok (v * k) else .error .panicOverflow

/-- `total_duration += Duration::from_secs(secs)`: `Duration` addition is
checked and panics on overflow of the `u64` seconds field. -/
def durAdd (total secs : Nat) : Except ParseErr Nat :=
  if total + secs < 2 ^ 64 then .ok (total + secs) else .error .panicOverflow

/-- The body of the `for cap in re_duration.captures_iter(..)` loop
(src/parser.rs lines 46–57) for one captured token. -/
def addToken (total : Nat) (tok : List Char × Char) : Except ParseErr Nat :=
  match tokenValue tok.1 with
  | .error e => .error e
  | .ok v =>
    if tok.2 = 'h' then
      match mulSecs v 3600 with
      | .error e => .error e
      | .ok secs => durAdd total secs
    else if tok.2 = 'm' then
      match mulSecs v 60 with
      | .error e => .error e
      | .ok secs => durAdd total secs
    else .error .invalidDurationUnit

/-- The whole token loop starting from an accumulated total, with the early
return of `?` on a parse error. -/
def sumTokensFrom (total : Nat) : List (List Char × Char) → Except ParseErr Nat
  | [] => .ok total
  | tok :: rest =>
    match addToken total tok with
    | .error e => .error e
    | .ok t2 => sumTokensFrom t2 rest

/-- The token loop starting from `Duration::ZERO`. -/
def sumTokens (toks : List (List Char × Char)) : Except ParseErr Nat :=
  sumTokensFrom 0 toks

/-- The duration branch of `parse_time_input` (src/parser.rs lines 35–74).
`re_duration.is_match time_str` is embedded as `findTokens time_str ≠ []`. -/
def parseDurationPart (name : String) (time_str : List Char) :
    Except ParseErr (String × TaskType) :=
  if findTokens time_str = [] ∧ time_str ≠ [] then .error .invalidInputFormat
  else
    match sumTokens (findTokens time_str) with
    | .error e => .error e
    | .ok total =>
      if total = 0 ∧ time_str ≠ [] then .error .zeroDuration
      else if total = 0 ∧ time_str = [] then .error .missingTimeInput
      else .ok (name, .Duration total)

/-- One numeric field of chrono's `%H` / `%M`: skip leading whitespace (chrono
numeric parsing does), then read one or two digits greedily. -/
def take2Digits (cs : List Char) : Option (Nat × List Char) :=
  match cs with
  | [] => none
  | c1 :: rest1 =>
    if c1.isDigit then
      match rest1 with
      | [] => some (c1.toNat - 48, [])
      | c2 :: rest2 =>
        if c2.isDigit then some ((c1.toNat - 48) * 10 + (c2.toNat - 48), rest2)
        else some (c1.toNat - 48, rest1)
    else none

/-- `NaiveTime::parse_from_str(s, "%H:%M")` (src/parser.rs line 23): the whole
string must be consumed, the literal `:` must match exactly, and the field
values must be a valid time of day. -/
def parseHHMM (cs : List Char) : Option (Nat × Nat) :=
  match take2Digits (cs.dropWhile isWs) with
  | none => none
  | some (hh, cs1) =>
    match cs1 with
    | [] => none
    | c :: cs2 =>
      if c = ':' then
        match take2Digits (cs2.dropWhile isWs) with
        | none => none
        | some (mm, cs3) =>
          if cs3 = [] ∧ hh < 24 ∧ mm < 60 then some (hh, mm) else none
      else none

/-- The deadline branch of `parse_time_input` (src/parser.rs lines 21–34),
with the local time zone modelled as a fixed offset of `off` seconds east of
UTC: `Local::now().naive_local()` is `now + off`, `date_naive` is the floor
division of that by 86400, and `and_local_timezone(Local).single()` (which can
only be ambiguous across DST transitions, absent from a fixed-offset zone)
always succeeds and subtracts the offset again. -/
def parseDeadline (off now : Int) (name : String) (rest : List Char) :
    Except ParseErr (String × TaskType) :=
  match parseHHMM rest with
  | none => .error .chronoParse
  | some (hh, mm) =>
    let nowLocal := now + off
    let today := nowLocal / 86400
    let dn0 := today * 86400 + ((hh * 3600 + mm * 60 : Nat) : Int)
    let dn := if dn0 < nowLocal then dn0 + 86400 else dn0
    .ok (name, .Deadline (dn - off))

/-- The label computation of src/parser.rs line 19: `"未命名"` when group 2 is
absent, the trimmed group otherwise. -/
def labelString : Option (List Char) → String
  | none => "未命名"
  | some lp => String.mk (trimChars lp)

/-- `parse_time_input` (src/parser.rs lines 10–75), with the clock reading
`now` and the fixed local-zone offset `off` passed explicitly. -/
def parse_time_input (off now : Int) (input : String) :
    Except ParseErr (String × TaskType) :=
  match splitInput input.toList with
  | none => .error .invalidInputFormat
  | some (p1, p2) =>
    let time_str := trimChars p1
    if time_str = [] then .error .missingTimeInput
    else
      if headIsAt time_str then parseDeadline off now (labelString p2) time_str.tail
      else parseDurationPart (labelString p2) time_str

/-!
Embedding of the action-string decoding of `Application::handle_menu_event`
(src/main.rs lines 852–1197).  Only the decoding of the action string into a
semantic command (or an error, or silence) is modelled; the task-registry
effects, logging and tray-icon updates that follow are presentation-layer
behaviour outside the claims.
-/

/-- `InvalidActionFormat` and `ParseActionIndex` of src/error.rs. -/
inductive ActionErr
  | invalidActionFormat
  | parseActionIndex
deriving DecidableEq

/-- The semantic commands the menu-event handler distinguishes.  The `edit_`
branch only logs a placeholder warning and parses no index, so `Edit` carries
none. -/
inductive Command
  | Quit
  | DockShow
  | DockHide
  | DockTestIcon
  | NewTask
  | TaskClick
  | Toggle (i : Nat)
  | Reset (i : Nat)
  | Edit
  | Delete (i : Nat)
  | Pin (i : Nat)
  | Unpin (i : Nat)
  | PinnedToggle (i : Nat)
  | PinnedReset (i : Nat)
deriving DecidableEq

/-- Outcome of decoding one action string: a command, a decode error that is
logged, or no branch taken at all (the handler falls through silently). -/
inductive Dispatched
  | cmd (c : Command)
  | err (e : ActionErr)
  | ignored
deriving DecidableEq

/-- `str::strip_prefix`: the remainder when `pre` is a prefix of `s`. -/
def dropPre : List Char → List Char → Option (List Char)
  | [], s => some s
  | _ :: _, [] => none
  | p :: ps, c :: cs => if p = c then dropPre ps cs else none

/-- `str::starts_with` on character lists. -/
def beginsWith (pre s : List Char) : Bool :=
  (dropPre pre s).isSome

/-- `s.parse::<usize>()` on a 64-bit target: an optional leading `+`, then one
or more ASCII digits, failing on overflow past `u64::MAX`. -/
def parseUsizeChars (cs : List Char) : Option Nat :=
  let ds := if beginsWith ['+'] cs then cs.tail else cs
  if ds ≠ [] ∧ ds.all Char.isDigit then
    if natOfDigits ds < 2 ^ 64 then some (natOfDigits ds) else none
  else none

/-- One `action.strip_prefix(pre).ok_or(InvalidActionFormat).and_then(parse)`
block of the handler (e.g. src/main.rs lines 914–927). -/
def decodeIndexed (mk : Nat → Command) (pre action : List Char) : Dispatched :=
  match dropPre pre action with
  | none => .err .invalidActionFormat
  | some s =>
    match parseUsizeChars s with
    | none => .err .parseActionIndex
    | some i => .cmd (mk i)

/-- The if/else-if chain of `handle_menu_event` on the resolved action string,
in source order.  A string matching no branch reaches the end of the chain and
nothing happens. -/
def decodeActionChars (a : List Char) : Dispatched :=
  if a = "quit".toList then .cmd .Quit
  else if a = "dock_show".toList then .cmd .DockShow
  else if a = "dock_hide".toList then .cmd .DockHide
  else if a = "dock_test_icon".toList then .cmd .DockTestIcon
  else if a = "new_task".toList then .cmd .NewTask
  else if beginsWith "task_".toList a then .cmd .TaskClick
  else if beginsWith "toggle_".toList a then decodeIndexed .Toggle "toggle_".toList a
  else if beginsWith "reset_".toList a then decodeIndexed .Reset "reset_".toList a
  else if beginsWith "edit_".toList a then .cmd .Edit
  else if beginsWith "delete_".toList a then decodeIndexed .Delete "delete_".toList a
  else if beginsWith "pin_".toList a then decodeIndexed .Pin "pin_".toList a
  else if beginsWith "unpin_".toList a then decodeIndexed .Unpin "unpin_".toList a
  else if beginsWith "pinned_toggle_".toList a then
    decodeIndexed .PinnedToggle "pinned_toggle_".toList a
  else if beginsWith "pinned_reset_".toList a then
    decodeIndexed .PinnedReset "pinned_reset_".toList a
  else .ignored

/-- Decode an action string. -/
def decodeAction (action : String) : Dispatched :=
  decodeActionChars action.toList

/-!
Specification-side definitions.  These two are written from the words of the
claims, not from the source, and are used to compare the parser's behaviour
with what the specification asserts about it.
-/

/-- Fuel-driven recursion for `tokenSeqCheck`; as for `findTokensAux`, fuel
equal to the list length never runs out because every token consumes at least
one character. -/
def tokenSeqCheckAux (fuel : Nat) (cs : List Char) : Bool :=
  match fuel with
  | 0 => false
  | fuel + 1 =>
    match tryToken cs with
    | some (_, _, r) => r.isEmpty || tokenSeqCheckAux fuel r
    | none => false

/-- From the spec's words: the string is exactly a (nonempty) sequence of
`<digits><unit>` tokens, unit ∈ {h, m}, with optional whitespace between the
digits and the unit and nothing else anywhere. -/
def tokenSeqCheck (cs : List Char) : Bool :=
  tokenSeqCheckAux cs.length cs

/-- From the spec's words: the sum over the matched tokens of
hours × 3600 s plus minutes × 60 s. -/
def specDurationSum (toks : List (List Char × Char)) : Nat :=
  3600 * ((toks.filter fun tok => tok.2 = 'h').map fun tok => natOfDigits tok.1).sum
    + 60 * ((toks.filter fun tok => tok.2 = 'm').map fun tok => natOfDigits tok.1).sum

/-- A start or pause call together with the clock reading at which it runs;
used to state invariance of a deadline task's remaining time under arbitrary
toggling histories. -/
inductive TaskOp
  | opStart (now : Int)
  | opPause (now : Int)

/-- Run one operation, keeping the post-state whether or not the call
reported a clock error (as the running program does). -/
def applyOp (t : Task) : TaskOp → Task
  | .opStart now => t.start now
  | .opPause now => (t.pause now).1

/-- Run a sequence of start/pause calls left to right. -/
def applySeq (t : Task) : List TaskOp → Task
  | [] => t
  | op :: rest => applySeq (applyOp t op) rest

theorem dropWhile_length_le {α : Type} (p : α → Bool) (l : List α) :
    (l.dropWhile p).length ≤ l.length := by
  induction l with
  | nil => simp
  | cons c cs ih =>
    rw [List.dropWhile_cons]
    split
    · exact le_trans ih (by simp)
    · simp

theorem tryToken_length (cs d : List Char) (u : Char) (r : List Char)
    (h : tryToken cs = some (d, u, r)) : r.length < cs.length := by
  unfold tryToken at h
  split at h
  · exact absurd h (by simp)
  · split at h
    · exact absurd h (by simp)
    · rename_i u' r' heq
      split at h
      · simp only [Option.some.injEq, Prod.mk.injEq] at h
        obtain ⟨-, -, hr⟩ := h
        have h1 : ((cs.dropWhile Char.isDigit).dropWhile isWs).length ≤
            (cs.dropWhile Char.isDigit).length := dropWhile_length_le _ _
        have h2 : (cs.dropWhile Char.isDigit).length ≤ cs.length :=
          dropWhile_length_le _ _
        have h3 : ((cs.dropWhile Char.isDigit).dropWhile isWs).length = r.length + 1 := by
          rw [heq, hr]; simp
        omega
      · exact absurd h (by simp)

theorem applyOp_task_type (t : Task) (op : TaskOp) :
    (applyOp t op).task_type = t.task_type := by
  cases op with
  | opStart now =>
    simp only [applyOp]
    unfold Task.start
    split <;> rfl
  | opPause now =>
    simp only [applyOp]
    unfold Task.pause
    dsimp only
    (repeat' split) <;> rfl

theorem applySeq_task_type (t : Task) (ops : List TaskOp) :
    (applySeq t ops).task_type = t.task_type := by
  induction ops generalizing t with
  | nil => rfl
  | cons op rest ih =>
    simp only [applySeq]
    rw [ih, applyOp_task_type]

theorem get_remaining_deadline (t : Task) (dl now : Int)
    (h : t.task_type = .Deadline dl) :
    t.get_remaining_time now =
      (match system_time_to_duration dl with
       | .error e => .error e
       | .ok dlSecs =>
         match system_time_to_duration now with
         | .error e => .error e
         | .ok nowSecs => .ok (dlSecs - nowSecs)) := by
  unfold Task.get_remaining_time
  rw [h]

/-- Claim C1, counterexample: a running `Duration` task whose recorded start
time lies in the clock's future.  `pause` reports a `ClockError`, yet the task
is not "exactly what it was before the call": `is_running` has been cleared. -/
theorem pause_clock_error_mutates_state :
    (Task.pause ⟨"t", .Duration 60, true, some 100, 60, false⟩ 50).2 =
      some .systemTime ∧
    (Task.pause ⟨"t", .Duration 60, true, some 100, 60, false⟩ 50).1 ≠
      ⟨"t", .Duration 60, true, some 100, 60, false⟩ := by
  decide

/-- Claim C1 as amended: on a `ClockError` from `pause`, `remaining` and
`start_time` are unmodified but `is_running` has already been set to false; on
a `ClockError` from `reset`, `remaining` is unmodified but `is_running` has
been set to false and `start_time` to `None`.  The update is partial, not
absent. -/
theorem clock_error_partial_state (t : Task) (now : Int) :
    ((t.pause now).2.isSome = true → (t.pause now).1 = { t with is_running := false }) ∧
    ((t.reset now).2.isSome = true →
      (t.reset now).1 = { t with is_running := false, start_time := none }) := by
  constructor
  · intro hp
    by_cases hr : t.is_running
    · cases hst : t.start_time with
      | none => simp [Task.pause, hr, hst] at hp
      | some start =>
        cases he : elapsedSince start now with
        | ok v => simp [Task.pause, hr, hst, he] at hp
        | error e => simp [Task.pause, hr, hst, he]
    · simp [Task.pause, hr] at hp
  · intro hp
    cases htt : t.task_type with
    | Duration d => simp [Task.reset, htt] at hp
    | Deadline dl =>
      cases h1 : system_time_to_duration dl with
      | error e => simp [Task.reset, htt, h1]
      | ok dlSecs =>
        cases h2 : system_time_to_duration now with
        | error e => simp [Task.reset, htt, h1, h2]
        | ok nowSecs => simp [Task.reset, htt, h1, h2] at hp

theorem clock_error_partial_state_witness :
    (Task.pause ⟨"w", .Deadline (-5), true, some 100, 60, false⟩ 50).1 =
      { (⟨"w", .Deadline (-5), true, some 100, 60, false⟩ : Task) with
          is_running := false } ∧
    (Task.reset ⟨"w", .Deadline (-5), true, some 100, 60, false⟩ 50).1 =
      { (⟨"w", .Deadline (-5), true, some 100, 60, false⟩ : Task) with
          is_running := false, start_time := none } :=
  ⟨(clock_error_partial_state _ 50).1 (by decide),
   (clock_error_partial_state _ 50).2 (by decide)⟩

/-- Claim C7: a `Deadline` task's `get_remaining_time` is unchanged by any
sequence of `start`/`pause` calls, does not depend on the `is_running`,
`start_time` and `remaining` fields (any two tasks with the same deadline
agree), and — whenever both clock conversions succeed, i.e. both instants are
at or after the epoch — equals the deadline minus `now`, clamped at zero. -/
theorem deadline_remaining_live (t u : Task) (dl now : Int) (ops : List TaskOp)
    (ht : t.task_type = .Deadline dl) (hu : u.task_type = .Deadline dl) :
    (applySeq t ops).get_remaining_time now = t.get_remaining_time now ∧
    u.get_remaining_time now = t.get_remaining_time now ∧
    (0 ≤ dl → 0 ≤ now → t.get_remaining_time now = .ok ((dl - now).toNat)) := by
  have hseq : (applySeq t ops).task_type = .Deadline dl := by
    rw [applySeq_task_type, ht]
  refine ⟨?_, ?_, ?_⟩
  · rw [get_remaining_deadline _ dl now hseq, get_remaining_deadline _ dl now ht]
  · rw [get_remaining_deadline _ dl now hu, get_remaining_deadline _ dl now ht]
  · intro h1 h2
    rw [get_remaining_deadline _ dl now ht]
    simp only [system_time_to_duration, if_pos h1, if_pos h2, Except.ok.injEq]
    omega

theorem deadline_remaining_live_witness :
    (applySeq ⟨"d", .Deadline 100, false, none, 0, false⟩ [.opStart 5]).get_remaining_time 30 =
      Task.get_remaining_time ⟨"d", .Deadline 100, false, none, 0, false⟩ 30 ∧
    Task.get_remaining_time ⟨"d", .Deadline 100, true, some 1, 7, true⟩ 30 =
      Task.get_remaining_time ⟨"d", .Deadline 100, false, none, 0, false⟩ 30 ∧
    Task.get_remaining_time ⟨"d", .Deadline 100, false, none, 0, false⟩ 30 = .ok 70 :=
  ⟨(deadline_remaining_live ⟨"d", .Deadline 100, false, none, 0, false⟩
      ⟨"d", .Deadline 100, true, some 1, 7, true⟩ 100 30 [.opStart 5] rfl rfl).1,
   (deadline_remaining_live ⟨"d", .Deadline 100, false, none, 0, false⟩
      ⟨"d", .Deadline 100, true, some 1, 7, true⟩ 100 30 [] rfl rfl).2.1,
   (deadline_remaining_live ⟨"d", .Deadline 100, false, none, 0, false⟩
      ⟨"d", .Deadline 100, true, some 1, 7, true⟩ 100 30 [] rfl rfl).2.2
     (by decide) (by decide)⟩

/-- Claim C8: for a `Duration d` task, `reset` always succeeds, clears
`is_running` and `start_time`, restores `remaining` to `d`, and afterwards
`get_remaining_time` (at any clock reading) returns exactly `d`, whatever the
prior running/paused state and `remaining` value. -/
theorem reset_restores_duration (t : Task) (d : Nat) (now now2 : Int)
    (h : t.task_type = .Duration d) :
    t.reset now =
      ({ t with is_running := false, start_time := none, remaining := d }, none) ∧
    (t.reset now).1.get_remaining_time now2 = .ok d := by
  have hreset : t.reset now =
      ({ t with is_running := false, start_time := none, remaining := d }, none) := by
    unfold Task.reset
    rw [h]
  refine ⟨hreset, ?_⟩
  rw [hreset]
  simp [Task.get_remaining_time, h]

theorem reset_restores_duration_witness :
    Task.reset ⟨"w", .Duration 5, true, some 3, 1, false⟩ 10 =
      (⟨"w", .Duration 5, false, none, 5, false⟩, none) ∧
    (Task.reset ⟨"w", .Duration 5, true, some 3, 1, false⟩ 10).1.get_remaining_time 20 =
      .ok 5 :=
  reset_restores_duration ⟨"w", .Duration 5, true, some 3, 1, false⟩ 5 10 20 rfl

/-- Claim C9: `start`, `pause` and `reset` — whether they succeed or report a
clock error — never change the `name`, `task_type` and `pinned` fields. -/
theorem ops_frame_fields (t : Task) (now : Int) :
    (t.start now).name = t.name ∧ (t.start now).task_type = t.task_type ∧
      (t.start now).pinned = t.pinned ∧
    (t.pause now).1.name = t.name ∧ (t.pause now).1.task_type = t.task_type ∧
      (t.pause now).1.pinned = t.pinned ∧
    (t.reset now).1.name = t.name ∧ (t.reset now).1.task_type = t.task_type ∧
      (t.reset now).1.pinned = t.pinned := by
  unfold Task.start Task.pause Task.reset
  dsimp only
  refine ⟨?_, ?_, ?_, ?_, ?_, ?_, ?_, ?_, ?_⟩ <;> (repeat' split) <;> rfl

theorem ops_frame_fields_witness :
    (Task.start ⟨"n", .Duration 3, false, none, 9, true⟩ 5).name = "n" :=
  (ops_frame_fields ⟨"n", .Duration 3, false, none, 9, true⟩ 5).1

/-- Claim C10: a `Duration` task in the degenerate state `is_running = true`
with `start_time = None` still gets a value from `get_remaining_time`: the
running branch falls back to the stored `remaining`. -/
theorem running_without_start_total (t : Task) (d : Nat) (now : Int)
    (h : t.task_type = .Duration d) (hr : t.is_running = true)
    (hs : t.start_time = none) :
    t.get_remaining_time now = .ok t.remaining := by
  simp [Task.get_remaining_time, h, hr, hs]

theorem running_without_start_total_witness :
    Task.get_remaining_time ⟨"g", .Duration 10, true, none, 4, false⟩ 99 = .ok 4 :=
  running_without_start_total ⟨"g", .Duration 10, true, none, 4, false⟩ 10 99 rfl rfl rfl

theorem tryToken_unit (cs digits : List Char) (u : Char) (r : List Char)
    (h : tryToken cs = some (digits, u, r)) : u = 'h' ∨ u = 'm' := by
  unfold tryToken at h
  split at h
  · exact absurd h (by simp)
  · split at h
    · exact absurd h (by simp)
    · split at h
      · rename_i hcond
        simp only [Option.some.injEq, Prod.mk.injEq] at h
        obtain ⟨-, hu, -⟩ := h
        rw [← hu]
        exact hcond
      · exact absurd h (by simp)

theorem findTokensAux_units (fuel : Nat) :
    ∀ (cs : List Char), ∀ tok ∈ findTokensAux fuel cs, tok.2 = 'h' ∨ tok.2 = 'm' := by
  induction fuel with
  | zero =>
    intro cs tok ht
    simp [findTokensAux] at ht
  | succ n ih =>
    intro cs tok ht
    cases cs with
    | nil => simp [findTokensAux] at ht
    | cons c rest =>
      simp only [findTokensAux] at ht
      cases htt : tryToken (c :: rest) with
      | some v =>
        obtain ⟨digits, u, r⟩ := v
        rw [htt] at ht
        rcases List.mem_cons.mp ht with h1 | h1
        · rw [h1]
          exact tryToken_unit _ _ _ _ htt
        · exact ih r tok h1
      | none =>
        rw [htt] at ht
        exact ih rest tok ht

theorem findTokens_units (cs : List Char) :
    ∀ tok ∈ findTokens cs, tok.2 = 'h' ∨ tok.2 = 'm' :=
  findTokensAux_units cs.length cs

theorem tokenValue_ok (digits : List Char) (v : Nat) (h : tokenValue digits = .ok v) :
    v = natOfDigits digits := by
  unfold tokenValue at h
  split at h
  · injection h with h
    exact h.symm
  · exact absurd h (by simp)

theorem mulSecs_ok (v k r : Nat) (h : mulSecs v k = .ok r) : r = v * k := by
  unfold mulSecs at h
  split at h
  · injection h with h
    exact h.symm
  · exact absurd h (by simp)

theorem durAdd_ok (a b r : Nat) (h : durAdd a b = .ok r) : r = a + b := by
  unfold durAdd at h
  split at h
  · injection h with h
    exact h.symm
  · exact absurd h (by simp)

theorem addToken_ok (acc t2 : Nat) (tok : List Char × Char)
    (h : addToken acc tok = .ok t2) :
    t2 = acc + (if tok.2 = 'h' then 3600 * natOfDigits tok.1
                else if tok.2 = 'm' then 60 * natOfDigits tok.1 else 0) := by
  unfold addToken at h
  cases hv : tokenValue tok.1 with
  | error e => rw [hv] at h; exact absurd h (by simp)
  | ok v =>
    rw [hv] at h
    dsimp only at h
    have hvv := tokenValue_ok _ _ hv
    by_cases hh : tok.2 = 'h'
    · rw [if_pos hh] at h
      cases hm : mulSecs v 3600 with
      | error e => rw [hm] at h; exact absurd h (by simp)
      | ok secs =>
        rw [hm] at h
        have h1 := mulSecs_ok _ _ _ hm
        have h2 := durAdd_ok _ _ _ h
        rw [if_pos hh]
        omega
    · by_cases hm2 : tok.2 = 'm'
      · rw [if_neg hh, if_pos hm2] at h
        cases hm : mulSecs v 60 with
        | error e => rw [hm] at h; exact absurd h (by simp)
        | ok secs =>
          rw [hm] at h
          have h1 := mulSecs_ok _ _ _ hm
          have h2 := durAdd_ok _ _ _ h
          rw [if_neg hh, if_pos hm2]
          omega
      · rw [if_neg hh, if_neg hm2] at h
        exact absurd h (by simp)

theorem specDurationSum_cons (tok : List Char × Char) (rest : List (List Char × Char)) :
    specDurationSum (tok :: rest) =
      (if tok.2 = 'h' then 3600 * natOfDigits tok.1
       else if tok.2 = 'm' then 60 * natOfDigits tok.1 else 0) + specDurationSum rest := by
  by_cases hh : tok.2 = 'h'
  · have hm : ¬tok.2 = 'm' := by rw [hh]; decide
    simp only [specDurationSum, List.filter_cons, hh, hm]
    simp
    ring
  · by_cases hm : tok.2 = 'm'
    · simp only [specDurationSum, List.filter_cons, hh, hm]
      simp
      ring
    · simp only [specDurationSum, List.filter_cons, hh, hm]
      simp

theorem sumTokensFrom_ok (toks : List (List Char × Char)) :
    ∀ (acc n : Nat), sumTokensFrom acc toks = .ok n → n = acc + specDurationSum toks := by
  induction toks with
  | nil =>
    intro acc n h
    simp only [sumTokensFrom] at h
    injection h with h
    simp [specDurationSum, ← h]
  | cons tok rest ih =>
    intro acc n h
    simp only [sumTokensFrom] at h
    cases ha : addToken acc tok with
    | error e => rw [ha] at h; exact absurd h (by simp)
    | ok t2 =>
      rw [ha] at h
      have h1 := ih t2 n h
      have h2 := addToken_ok _ _ _ ha
      rw [specDurationSum_cons]
      omega

theorem sumTokens_ok (toks : List (List Char × Char)) (n : Nat)
    (h : sumTokens toks = .ok n) : n = specDurationSum toks := by
  have := sumTokensFrom_ok toks 0 n h
  omega

theorem natSum_zero (l : List Nat) (h : l.sum = 0) : ∀ x ∈ l, x = 0 := by
  induction l with
  | nil => simp
  | cons a rest ih =>
    simp only [List.sum_cons] at h
    intro x hx
    rcases List.mem_cons.mp hx with hx | hx
    · omega
    · exact ih (by omega) x hx

theorem specSum_zero_vals (toks : List (List Char × Char))
    (hunits : ∀ tok ∈ toks, tok.2 = 'h' ∨ tok.2 = 'm')
    (h : specDurationSum toks = 0) : ∀ tok ∈ toks, natOfDigits tok.1 = 0 := by
  intro tok ht
  unfold specDurationSum at h
  have h1 : ((toks.filter fun tok => tok.2 = 'h').map fun tok => natOfDigits tok.1).sum = 0 := by
    omega
  have h2 : ((toks.filter fun tok => tok.2 = 'm').map fun tok => natOfDigits tok.1).sum = 0 := by
    omega
  rcases hunits tok ht with hu | hu
  · exact natSum_zero _ h1 _ (List.mem_map_of_mem _ (List.mem_filter.mpr ⟨ht, by simp [hu]⟩))
  · exact natSum_zero _ h2 _ (List.mem_map_of_mem _ (List.mem_filter.mpr ⟨ht, by simp [hu]⟩))

theorem sumTokensFrom_zero (toks : List (List Char × Char)) :
    ∀ acc : Nat, acc < 2 ^ 64 →
      (∀ tok ∈ toks, tok.2 = 'h' ∨ tok.2 = 'm') →
      (∀ tok ∈ toks, natOfDigits tok.1 = 0) →
      sumTokensFrom acc toks = .ok acc := by
  induction toks with
  | nil => intro acc _ _ _; rfl
  | cons tok rest ih =>
    intro acc hacc hunits hzero
    have h0 : natOfDigits tok.1 = 0 := hzero tok (by simp)
    have hu := hunits tok (by simp)
    have haddtok : addToken acc tok = .ok acc := by
      rcases hu with hu | hu <;>
        simp [addToken, tokenValue, mulSecs, durAdd, h0, hu, hacc] <;> omega
    simp only [sumTokensFrom, haddtok]
    exact ih acc hacc (fun tok ht => hunits tok (by simp [ht]))
      (fun tok ht => hzero tok (by simp [ht]))

theorem sumTokens_zero (toks : List (List Char × Char))
    (hunits : ∀ tok ∈ toks, tok.2 = 'h' ∨ tok.2 = 'm')
    (hzero : specDurationSum toks = 0) : sumTokens toks = .ok 0 :=
  sumTokensFrom_zero toks 0 (by norm_num) hunits (specSum_zero_vals toks hunits hzero)

theorem parse_branch_empty (off now : Int) (input : String) (p1 : List Char)
    (p2 : Option (List Char)) (hs : splitInput input.toList = some (p1, p2))
    (he : trimChars p1 = []) :
    parse_time_input off now input = .error .missingTimeInput := by
  unfold parse_time_input
  rw [hs]
  simp [he]

theorem parse_branch_deadline (off now : Int) (input : String) (p1 : List Char)
    (p2 : Option (List Char)) (hs : splitInput input.toList = some (p1, p2))
    (hne : trimChars p1 ≠ []) (hat : headIsAt (trimChars p1) = true) :
    parse_time_input off now input =
      parseDeadline off now (labelString p2) (trimChars p1).tail := by
  unfold parse_time_input
  rw [hs]
  simp [hne, hat]

theorem parse_branch_duration (off now : Int) (input : String) (p1 : List Char)
    (p2 : Option (List Char)) (hs : splitInput input.toList = some (p1, p2))
    (hne : trimChars p1 ≠ []) (hat : headIsAt (trimChars p1) = false) :
    parse_time_input off now input = parseDurationPart (labelString p2) (trimChars p1) := by
  unfold parse_time_input
  rw [hs]
  simp [hne, hat]

theorem parseHHMM_bounds (cs : List Char) (hh mm : Nat)
    (h : parseHHMM cs = some (hh, mm)) : hh < 24 ∧ mm < 60 := by
  unfold parseHHMM at h
  repeat' split at h
  all_goals simp_all

/-- Claim C3, counterexample: `"xx1h30m"` is not a sequence of
`<digits><unit>` tokens (it starts with two letters), yet the parser accepts
it — `captures_iter` simply skips characters that are not part of a match. -/
theorem junk_between_tokens_accepted :
    parse_time_input 0 0 "xx1h30m" = .ok ("未命名", .Duration 5400) ∧
    tokenSeqCheck (trimChars "xx1h30m".toList) = false :=
  ⟨rfl, rfl⟩

/-- Claim C3 as amended: for a successfully parsed non-deadline input, the
time part need only *contain* `<digits><unit>` matches (unit ∈ {h, m},
optional whitespace between digits and unit); characters around or between
the matches are ignored, and the resulting duration is the sum over the
matched tokens of hours × 3600 s plus minutes × 60 s.  In particular
`parse("1h30m#学习")` is `("学习", Duration(5400 s))`. -/
theorem duration_parse_sums_matched_tokens :
    (∀ (off now : Int) (input : String) (p1 : List Char) (p2 : Option (List Char))
        (label : String) (kind : TaskType),
      splitInput input.toList = some (p1, p2) →
      headIsAt (trimChars p1) = false →
      parse_time_input off now input = .ok (label, kind) →
      kind = .Duration (specDurationSum (findTokens (trimChars p1)))) ∧
    parse_time_input 0 0 "1h30m#学习" = .ok ("学习", .Duration 5400) := by
  constructor
  · intro off now input p1 p2 label kind hs hat hp
    by_cases hne : trimChars p1 = []
    · rw [parse_branch_empty off now input p1 p2 hs hne] at hp
      exact absurd hp (by simp)
    · rw [parse_branch_duration off now input p1 p2 hs hne hat] at hp
      unfold parseDurationPart at hp
      split at hp
      · exact absurd hp (by simp)
      · cases hsum : sumTokens (findTokens (trimChars p1)) with
        | error e => rw [hsum] at hp; exact absurd hp (by simp)
        | ok total =>
          rw [hsum] at hp
          dsimp only at hp
          split at hp
          · exact absurd hp (by simp)
          · split at hp
            · exact absurd hp (by simp)
            · simp only [Except.ok.injEq, Prod.mk.injEq] at hp
              obtain ⟨-, hkind⟩ := hp
              rw [← hkind, sumTokens_ok _ _ hsum]
  · rfl

theorem duration_parse_sums_matched_tokens_witness :
    TaskType.Duration 7200 =
      .Duration (specDurationSum (findTokens (trimChars "2h".toList))) :=
  duration_parse_sums_matched_tokens.1 0 0 "2h" "2h".toList none "未命名"
    (.Duration 7200) rfl rfl rfl

/-- Claim C4: for an input whose time part does not start with `'@'`, the
parser fails with `MissingTimeInput` when the (trimmed) time part is empty,
with `InvalidInputFormat` when it is nonempty but contains no
`<digits><unit>` match, and with `ZeroDuration` when there are matches and
they sum to zero; being errors, no `(label, TaskKind)` value is produced. -/
theorem duration_parse_error_cases (off now : Int) (input : String) (p1 : List Char)
    (p2 : Option (List Char)) (hs : splitInput input.toList = some (p1, p2))
    (hat : headIsAt (trimChars p1) = false) :
    (trimChars p1 = [] → parse_time_input off now input = .error .missingTimeInput) ∧
    (trimChars p1 ≠ [] → findTokens (trimChars p1) = [] →
      parse_time_input off now input = .error .invalidInputFormat) ∧
    (findTokens (trimChars p1) ≠ [] →
      specDurationSum (findTokens (trimChars p1)) = 0 →
      parse_time_input off now input = .error .zeroDuration) := by
  refine ⟨fun he => parse_branch_empty off now input p1 p2 hs he, ?_, ?_⟩
  · intro hne htoks
    rw [parse_branch_duration off now input p1 p2 hs hne hat]
    unfold parseDurationPart
    rw [if_pos ⟨htoks, hne⟩]
  · intro htoks hzero
    have hne : trimChars p1 ≠ [] := by
      intro hc
      rw [hc] at htoks
      exact htoks rfl
    rw [parse_branch_duration off now input p1 p2 hs hne hat]
    unfold parseDurationPart
    rw [if_neg (fun hcontra => htoks hcontra.1)]
    rw [sumTokens_zero _ (findTokens_units _) hzero]
    dsimp only
    rw [if_pos ⟨rfl, hne⟩]

theorem duration_parse_error_cases_witness :
    parse_time_input 0 0 "#x" = .error .missingTimeInput ∧
    parse_time_input 0 0 "abc#x" = .error .invalidInputFormat ∧
    parse_time_input 0 0 "0h0m#x" = .error .zeroDuration :=
  ⟨(duration_parse_error_cases 0 0 "#x" [] (some ['x']) rfl rfl).1 rfl,
   (duration_parse_error_cases 0 0 "abc#x" ['a', 'b', 'c'] (some ['x']) rfl rfl).2.1
     (by decide) rfl,
   (duration_parse_error_cases 0 0 "0h0m#x" ['0', 'h', '0', 'm'] (some ['x']) rfl rfl).2.2
     (by decide) rfl⟩

/-- Claim C5, counterexample: in `"25m# "` the label part is present but
trims to the empty string, and the parser returns the empty label — the
`"未命名"` default applies only when the label part is absent, not when it is
empty after trimming. -/
theorem whitespace_label_not_defaulted :
    parse_time_input 0 0 "25m# " = .ok ("", .Duration 1500) ∧
    ("" : String) ≠ "未命名" :=
  ⟨rfl, by decide⟩

/-- Claim C5 as amended: on any successful parse the label is `"未命名"` when
the label part is absent, and otherwise the label part with surrounding
whitespace trimmed — which may be the empty string.  In particular
`parse("25m")` is `("未命名", Duration(1500 s))`. -/
theorem label_selection :
    (∀ (off now : Int) (input : String) (p1 : List Char) (p2 : Option (List Char))
        (label : String) (kind : TaskType),
      splitInput input.toList = some (p1, p2) →
      parse_time_input off now input = .ok (label, kind) →
      (p2 = none → label = "未命名") ∧
      (∀ lp : List Char, p2 = some lp → label = String.mk (trimChars lp))) ∧
    parse_time_input 0 0 "25m" = .ok ("未命名", .Duration 1500) := by
  constructor
  · intro off now input p1 p2 label kind hs hp
    have hlabel : label = labelString p2 := by
      by_cases hne : trimChars p1 = []
      · rw [parse_branch_empty off now input p1 p2 hs hne] at hp
        exact absurd hp (by simp)
      · by_cases hat : headIsAt (trimChars p1) = true
        · rw [parse_branch_deadline off now input p1 p2 hs hne hat] at hp
          unfold parseDeadline at hp
          cases hhm : parseHHMM (trimChars p1).tail with
          | none => rw [hhm] at hp; exact absurd hp (by simp)
          | some v =>
            obtain ⟨hh, mm⟩ := v
            rw [hhm] at hp
            dsimp only at hp
            simp only [Except.ok.injEq, Prod.mk.injEq] at hp
            exact hp.1.symm
        · have hat' : headIsAt (trimChars p1) = false := by simpa using hat
          rw [parse_branch_duration off now input p1 p2 hs hne hat'] at hp
          unfold parseDurationPart at hp
          split at hp
          · exact absurd hp (by simp)
          · cases hsum : sumTokens (findTokens (trimChars p1)) with
            | error e => rw [hsum] at hp; exact absurd hp (by simp)
            | ok total =>
              rw [hsum] at hp
              dsimp only at hp
              split at hp
              · exact absurd hp (by simp)
              · split at hp
                · exact absurd hp (by simp)
                · simp only [Except.ok.injEq, Prod.mk.injEq] at hp
                  exact hp.1.symm
    constructor
    · intro h2
      rw [hlabel, h2]
      rfl
    · intro lp h2
      rw [hlabel, h2]
      rfl
  · rfl

theorem label_selection_witness :
    ("a" : String) = String.mk (trimChars (' ' :: ['a'])) :=
  (label_selection.1 0 0 "3m# a" ['3', 'm'] (some (' ' :: ['a'])) "a" (.Duration 180)
    rfl rfl).2 (' ' :: ['a']) rfl

/-- Claim C6: a successfully parsed `"@HH:MM..."` input yields the deadline
that is the next occurrence of that local time of day: its local seconds
value modulo 86400 is HH × 3600 + MM × 60, it is not before `now`, it is less
than one day after `now`, and it equals today's date at that time when that
instant is not yet past, and otherwise exactly one calendar day later.  The
local zone is modelled as a fixed offset `off`. -/
theorem deadline_next_occurrence (off now : Int) (input : String) (p1 : List Char)
    (p2 : Option (List Char)) (label : String) (dl : Int)
    (hs : splitInput input.toList = some (p1, p2))
    (hat : headIsAt (trimChars p1) = true)
    (hp : parse_time_input off now input = .ok (label, .Deadline dl)) :
    ∃ hh mm : Nat,
      parseHHMM (trimChars p1).tail = some (hh, mm) ∧
      (dl + off) % 86400 = hh * 3600 + mm * 60 ∧
      now ≤ dl ∧ dl < now + 86400 ∧
      dl + off =
        (if (now + off) / 86400 * 86400 + ((hh * 3600 + mm * 60 : Nat) : Int)
              < now + off
         then (now + off) / 86400 * 86400 + ((hh * 3600 + mm * 60 : Nat) : Int)
            + 86400
         else (now + off) / 86400 * 86400 + ((hh * 3600 + mm * 60 : Nat) : Int)) := by
  have hne : trimChars p1 ≠ [] := by
    intro hc
    rw [hc] at hat
    simp [headIsAt] at hat
  rw [parse_branch_deadline off now input p1 p2 hs hne hat] at hp
  unfold parseDeadline at hp
  cases hhm : parseHHMM (trimChars p1).tail with
  | none => rw [hhm] at hp; exact absurd hp (by simp)
  | some v =>
    obtain ⟨hh, mm⟩ := v
    rw [hhm] at hp
    dsimp only at hp
    simp only [Except.ok.injEq, Prod.mk.injEq, TaskType.Deadline.injEq] at hp
    obtain ⟨-, hdl⟩ := hp
    obtain ⟨hb1, hb2⟩ := parseHHMM_bounds _ _ _ hhm
    split at hdl <;>
      refine ⟨hh, mm, rfl, ?_, ?_, ?_, ?_⟩ <;>
      rename_i hC <;>
      push_cast at hdl hC ⊢ <;>
      first
        | (split <;> omega)
        | omega

theorem deadline_next_occurrence_witness :
    ∃ hh mm : Nat,
      parseHHMM (trimChars "@19:00".toList).tail = some (hh, mm) ∧
      ((68400 : Int) + 0) % 86400 = hh * 3600 + mm * 60 ∧
      (0 : Int) ≤ 68400 ∧ (68400 : Int) < 0 + 86400 ∧
      (68400 : Int) + 0 =
        (if ((0 : Int) + 0) / 86400 * 86400 + ((hh * 3600 + mm * 60 : Nat) : Int)
              < (0 : Int) + 0
         then ((0 : Int) + 0) / 86400 * 86400 + ((hh * 3600 + mm * 60 : Nat) : Int)
            + 86400
         else ((0 : Int) + 0) / 86400 * 86400 + ((hh * 3600 + mm * 60 : Nat) : Int)) :=
  deadline_next_occurrence 0 0 "@19:00#工作" "@19:00".toList (some "工作".toList)
    "工作" 68400 rfl rfl rfl

/-- Claim C2, counterexample: the action string `"frobnicate"` matches no
branch of the handler's if/else-if chain, so it is silently ignored — no
`InvalidActionFormat` error is produced (that error is only constructed after
a successful `starts_with` check, where `strip_prefix` cannot fail). -/
theorem unknown_action_silently_ignored :
    decodeAction "frobnicate" = .ignored ∧
    decodeAction "frobnicate" ≠ .err .invalidActionFormat :=
  ⟨rfl, by decide⟩

/-- Claim C2 as amended: an action string that starts with no known verb or
prefix is silently ignored (no command, no error); for a string with a known
verb prefix such as `toggle_`, the decode yields `Toggle i` when the suffix
parses as a non-negative integer `i` and fails with `ParseActionIndex`
otherwise.  `"toggle_3"` decodes to `Toggle 3` and `"toggle_abc"` fails with
`ParseActionIndex`. -/
theorem action_decode_behavior :
    (∀ s : List Char,
      decodeActionChars ("toggle_".toList ++ s) =
        match parseUsizeChars s with
        | none => .err .parseActionIndex
        | some i => .cmd (.Toggle i)) ∧
    decodeAction "toggle_3" = .cmd (.Toggle 3) ∧
    decodeAction "toggle_abc" = .err .parseActionIndex ∧
    decodeAction "frobnicate" = .ignored :=
  ⟨fun _ => rfl, rfl, rfl, rfl⟩

theorem action_decode_behavior_witness :
    decodeActionChars ("toggle_".toList ++ ['4', '2']) =
      (match parseUsizeChars ['4', '2'] with
       | none => Dispatched.err .parseActionIndex
       | some i => .cmd (.Toggle i)) :=
  action_decode_behavior.1 ['4', '2']

end TimeTicker
